import Mathlib

/-!
Verification of the balancebeam reverse-proxy load balancer
(src/proj-2/balancebeam: main.rs, request.rs, response.rs).

The development shallowly embeds the proxy's message codec, upstream pool
and connection handler.  Byte streams are lists of read events (`Chunk`):
each `Chunk.data bs` is the byte run delivered by one successful
`stream.read` call (an empty run models the peer closing the socket) and
`Chunk.ioErr` models a read that fails with an I/O error.  Machine bytes
are `Nat` (values < 256 on real inputs), and the fallible Rust functions
become `Except`-valued Lean functions.  Loops are fuel-based with fuel
bounds taken from the source's own size limits.
-/

instance instDecEqExcept {ε α : Type} [DecidableEq ε] [DecidableEq α] :
    DecidableEq (Except ε α) := fun x y =>
  match x, y with
  | .ok a, .ok b =>
    if h : a = b then isTrue (by rw [h]) else isFalse (by intro hc; cases hc; exact h rfl)
  | .error a, .error b =>
    if h : a = b then isTrue (by rw [h]) else isFalse (by intro hc; cases hc; exact h rfl)
  | .ok _, .error _ => isFalse (by intro hc; cases hc)
  | .error _, .ok _ => isFalse (by intro hc; cases hc)

/-- ASCII bytes of a string literal (all inputs used are ASCII). -/
def asciiBytes (s : String) : List Nat := s.data.map (fun c => c.toNat)

/-- One read event of a TCP stream: a delivered byte run, or an I/O error.
A `data []` event is a read returning zero bytes (peer closed). -/
inductive Chunk
  | data (bs : List Nat)
  | ioErr
deriving DecidableEq

/-- `stream.read(&mut buf)` with a buffer of `cap` free bytes: delivers at
most `cap` bytes of the next pending run, leaving the remainder pending.
An exhausted stream delivers zero bytes (like a closed socket). -/
def readStream (cap : Nat) : List Chunk → (Except Unit (List Nat)) × List Chunk
  | [] => (.ok [], [])
  | .ioErr :: rest => (.error (), rest)
  | .data bs :: rest =>
    if bs.length ≤ cap then (.ok bs, rest)
    else (.ok (bs.take cap), .data (bs.drop cap) :: rest)

/-! ## Message codec: shared parsing helpers (httparse + http crate model) -/

/-- Split a buffer at the first CRLF; `none` when no complete line yet. -/
def splitCRLF : List Nat → Option (List Nat × List Nat)
  | [] => none
  | b :: rest =>
    if b = 13 ∧ rest.head? = some 10 then some ([], rest.tail)
    else (splitCRLF rest).map (fun p => (b :: p.1, p.2))

/-- Split at the first occurrence of byte `sep`. -/
def splitByte (sep : Nat) : List Nat → Option (List Nat × List Nat)
  | [] => none
  | b :: rest =>
    if b = sep then some ([], rest)
    else (splitByte sep rest).map (fun p => (b :: p.1, p.2))

/-- `http::HeaderName` stores names lowercased. -/
def lowerBytes (l : List Nat) : List Nat :=
  l.map (fun b => if 65 ≤ b ∧ b ≤ 90 then b + 32 else b)

def wsp (b : Nat) : Bool := b == 32 || b == 9

/-- Bytes httparse admits inside a header value: horizontal tab, or any
byte above 31 other than DEL. -/
def validValueByte (b : Nat) : Bool := b == 9 || (31 < b && b != 127)

/-- httparse walks back over trailing spaces and tabs before storing a
header value. -/
def trimTrailingWsp (v : List Nat) : List Nat := (v.reverse.dropWhile wsp).reverse

/-- Parse one header line `name ":" OWS value OWS` (httparse: the name may
not contain whitespace; leading and trailing whitespace of the value is
stripped, and a value byte outside httparse's allowed set is a parse
error).  The returned name is lowercased as
`http::Request::builder().header` stores it. -/
def parseHeaderLine (line : List Nat) : Option (List Nat × List Nat) :=
  match splitByte 58 line with
  | none => none
  | some (n, rest) =>
    if n = [] ∨ 32 ∈ n ∨ 9 ∈ n ∨ 13 ∈ n then none
    else
      if (rest.dropWhile wsp).all validValueByte then
        some (lowerBytes n, trimTrailingWsp (rest.dropWhile wsp))
      else none

inductive HeadersOut
  | complete (hs : List (List Nat × List Nat)) (rest : List Nat)
  | incomplete
  | malformed
deriving DecidableEq

/-- Header-line loop of `httparse`: read lines until the empty line.  A
33rd header overflows the `MAX_NUM_HEADERS = 32` array and is a
`TooManyHeaders` parse error (hence malformed). -/
def parseHeadersLoop : Nat → List Nat → List (List Nat × List Nat) → HeadersOut
  | 0, _, _ => .malformed
  | fuel + 1, buf, acc =>
    match splitCRLF buf with
    | none => .incomplete
    | some (line, rest) =>
      if line = [] then .complete acc.reverse rest
      else if 32 ≤ acc.length then .malformed
      else
        match parseHeaderLine line with
        | none => .malformed
        | some nv => parseHeadersLoop fuel rest (nv :: acc)

def HTTP11bytes : List Nat := [72, 84, 84, 80, 47, 49, 46, 49]
def HTTP10bytes : List Nat := [72, 84, 84, 80, 47, 49, 46, 48]

/-- Parse the request line `method SP target SP version`. -/
def parseRequestLine (line : List Nat) : Option (List Nat × List Nat) :=
  match splitByte 32 line with
  | none => none
  | some (m, rest) =>
    match splitByte 32 rest with
    | none => none
    | some (u, ver) =>
      if m ≠ [] ∧ u ≠ [] ∧ (ver = HTTP11bytes ∨ ver = HTTP10bytes) then some (m, u)
      else none

/-! ## Request codec (request.rs) -/

/-- Decoded request as stored by the proxy: `parse_request` builds an
`http::Request` with the parsed method and target, version forced to
HTTP/1.1, headers in wire order with lowercased names, and a byte body. -/
structure HttpRequest where
  method : List Nat
  uri : List Nat
  headers : List (List Nat × List Nat)
  body : List Nat
deriving DecidableEq

/-- `request::Error`. -/
inductive ReqError
  | IncompleteRequest (n : Nat)
  | MalformedRequest
  | InvalidContentLength
  | ContentLengthMismatch
  | RequestBodyTooLarge
  | ConnectionError
deriving DecidableEq

inductive ParseReq
  | complete (method uri : List Nat) (headers : List (List Nat × List Nat)) (rest : List Nat)
  | incomplete
  | malformed
deriving DecidableEq

/-- `parse_request` on a byte buffer: `complete` carries the parsed start
line and headers together with the bytes following the header block. -/
def parse_request (buf : List Nat) : ParseReq :=
  match splitCRLF buf with
  | none => .incomplete
  | some (line, rest) =>
    match parseRequestLine line with
    | none => .malformed
    | some (m, u) =>
      match parseHeadersLoop (rest.length + 1) rest [] with
      | .complete hs rest' => .complete m u hs rest'
      | .incomplete => .incomplete
      | .malformed => .malformed

/-- `request::read_headers` loop: read into the fixed 8000-byte buffer,
reparse after every read.  Zero bytes delivered means the client hung up
(`IncompleteRequest bytes_read`); the bytes beyond the header block that
arrived with the headers become the initial body. -/
def read_headers_req : Nat → List Chunk → List Nat → Except ReqError (HttpRequest × List Chunk)
  | 0, _, buf => .error (.IncompleteRequest buf.length)
  | fuel + 1, s, buf =>
    match readStream (8000 - buf.length) s with
    | (.error _, _) => .error .ConnectionError
    | (.ok bs, s') =>
      if bs.length = 0 then .error (.IncompleteRequest buf.length)
      else
        match parse_request (buf ++ bs) with
        | .complete m u hs rest => .ok (⟨m, u, hs, rest⟩, s')
        | .incomplete => read_headers_req fuel s' (buf ++ bs)
        | .malformed => .error .MalformedRequest

/-- First stored value of a header name (`HeaderMap::get`). -/
def headerFirst (name : List Nat) : List (List Nat × List Nat) → Option (List Nat)
  | [] => none
  | (n, v) :: rest => if n = name then some v else headerFirst name rest

def contentLengthBytes : List Nat := asciiBytes "content-length"

def isDigitByte (b : Nat) : Bool := 48 ≤ b && b ≤ 57

def digitsToNat (l : List Nat) : Nat := l.foldl (fun a b => a * 10 + (b - 48)) 0

/-- `str::parse::<usize>` on a header value: optional leading `+`, then
decimal digits, rejecting values that overflow 64-bit `usize`. -/
def parseNatBytes (v : List Nat) : Option Nat :=
  let core := if v.head? = some 43 then v.tail else v
  if core ≠ [] ∧ core.all isDigitByte then
    if digitsToNat core < 18446744073709551616 then some (digitsToNat core) else none
  else none

/-- `request::get_content_length`. -/
def get_content_length_req (r : HttpRequest) : Except ReqError (Option Nat) :=
  match headerFirst contentLengthBytes r.headers with
  | none => .ok none
  | some v =>
    match parseNatBytes v with
    | some n => .ok (some n)
    | none => .error .InvalidContentLength

/-- `request::read_body` loop: while the body is shorter than the declared
length, read at most `min 512 content_length` bytes; zero bytes or an
over-delivery is a `ContentLengthMismatch`. -/
def read_body_req : Nat → List Chunk → List Nat → Nat → Except ReqError (List Nat × List Chunk)
  | 0, _, _, _ => .error .ContentLengthMismatch
  | fuel + 1, s, body, cl =>
    if body.length < cl then
      match readStream (min 512 cl) s with
      | (.error _, _) => .error .ConnectionError
      | (.ok bs, s') =>
        if bs.length = 0 then .error .ContentLengthMismatch
        else if cl < body.length + bs.length then .error .ContentLengthMismatch
        else read_body_req fuel s' (body ++ bs) cl
    else .ok (body, s)

def MAX_BODY_SIZE : Nat := 10000000

/-- `request::read_from_stream`: read headers, then, when a Content-Length
header is present, enforce `MAX_BODY_SIZE` and read the body. -/
def read_from_stream_req (s : List Chunk) : Except ReqError HttpRequest :=
  match read_headers_req 8001 s [] with
  | .error e => .error e
  | .ok (r, s') =>
    match get_content_length_req r with
    | .error e => .error e
    | .ok none => .ok r
    | .ok (some cl) =>
      if MAX_BODY_SIZE < cl then .error .RequestBodyTooLarge
      else
        match read_body_req (cl + 1) s' r.body cl with
        | .error e => .error e
        | .ok (body', _) => .ok ⟨r.method, r.uri, r.headers, body'⟩

def encodeHeaders : List (List Nat × List Nat) → List Nat
  | [] => []
  | (n, v) :: hs => n ++ 58 :: 32 :: v ++ 13 :: 10 :: encodeHeaders hs

/-- The buffers handed to the successive `stream.write` calls of
`request::write_to_stream`: the request line (version printed
`HTTP/1.1`), a CRLF, then per stored header its `name ++ ": "`, its
value and a CRLF, a blank line, and the body when non-empty. -/
def headerPieces : List (List Nat × List Nat) → List (List Nat)
  | [] => []
  | (n, v) :: hs => (n ++ [58, 32]) :: v :: [13, 10] :: headerPieces hs

def requestWirePieces (r : HttpRequest) : List (List Nat) :=
  (r.method ++ 32 :: r.uri ++ 32 :: HTTP11bytes) :: [13, 10] :: headerPieces r.headers ++
    [13, 10] :: (if r.body = [] then [] else [r.body])

/-- One bare `stream.write(buf)` per piece: the stream accepts some byte
count (`none` = the whole buffer, `some k` = a short write of `k` bytes,
capped at the buffer length).  The source discards the returned counts,
so any unaccepted suffix is silently lost. -/
def writePieces : List (Option Nat) → List (List Nat) → List Nat
  | _, [] => []
  | acc, p :: ps =>
    (match acc.headD none with
     | none => p
     | some k => p.take k) ++ writePieces acc.tail ps

/-- `request::write_to_stream`: issues one bare `write` (not
`write_all`) per piece and ignores the returned byte counts; `accepts`
lists each call's accepted count (`[]` = every write completes in full). -/
def write_to_stream_req (accepts : List (Option Nat)) (r : HttpRequest) : List Nat :=
  writePieces accepts (requestWirePieces r)

/-- The header block of the canonical serialization: everything through
the blank line, i.e. the part `read_headers` must fit in its 8000-byte
buffer. -/
def requestHeaderBlock (r : HttpRequest) : List Nat :=
  r.method ++ 32 :: r.uri ++ 32 :: HTTP11bytes ++ 13 :: 10 ::
    encodeHeaders r.headers ++ [13, 10]

/-! ## extend_header_value (request.rs, lines 50-64) -/

/-- `HeaderMap::insert`: replace the values of `name` with the single
value `v` (keeping the first occurrence's slot), or append when absent. -/
def replaceHeader (name v : List Nat) : List (List Nat × List Nat) → List (List Nat × List Nat)
  | [] => [(name, v)]
  | (n, w) :: rest =>
    if n = name then (n, v) :: rest.filter (fun p => decide (p.1 ≠ name))
    else (n, w) :: replaceHeader name v rest

/-- `request::extend_header_value`: append `", " ++ ext` to the first
existing value of `name`, or create the header with value `ext`. -/
def extend_header_value (r : HttpRequest) (name ext : List Nat) : HttpRequest :=
  let newV :=
    match headerFirst name r.headers with
    | some v => v ++ 44 :: 32 :: ext
    | none => ext
  ⟨r.method, r.uri, replaceHeader name newV r.headers, r.body⟩

def xffBytes : List Nat := asciiBytes "x-forwarded-for"

/-! ## Response codec (response.rs) -/

/-- Decoded response as stored: `parse_response` keeps only the numeric
status code (the reason phrase is dropped), headers and body. -/
structure HttpResponse where
  code : Nat
  headers : List (List Nat × List Nat)
  body : List Nat
deriving DecidableEq

/-- `response::Error`. -/
inductive RespError
  | IncompleteResponse
  | MalformedResponse
  | InvalidContentLength
  | ContentLengthMismatch
  | ResponseBodyTooLarge
  | ConnectionError
deriving DecidableEq

/-- Parse the status line `version SP 3-digit-code [SP reason]`. -/
def parseStatusLine (line : List Nat) : Option Nat :=
  if line.take 8 = HTTP11bytes ∨ line.take 8 = HTTP10bytes then
    match line.drop 8 with
    | 32 :: d1 :: d2 :: d3 :: rest =>
      if isDigitByte d1 ∧ isDigitByte d2 ∧ isDigitByte d3 ∧
          (rest = [] ∨ rest.head? = some 32) then
        some (digitsToNat [d1, d2, d3])
      else none
    | _ => none
  else none

inductive ParseResp
  | complete (code : Nat) (headers : List (List Nat × List Nat)) (rest : List Nat)
  | incomplete
  | malformed
deriving DecidableEq

/-- `parse_response` on a byte buffer. -/
def parse_response (buf : List Nat) : ParseResp :=
  match splitCRLF buf with
  | none => .incomplete
  | some (line, rest) =>
    match parseStatusLine line with
    | none => .malformed
    | some code =>
      match parseHeadersLoop (rest.length + 1) rest [] with
      | .complete hs rest' => .complete code hs rest'
      | .incomplete => .incomplete
      | .malformed => .malformed

/-- `response::read_headers` loop (8000-byte buffer, reparse per read);
bytes beyond the header block become the initial body. -/
def read_headers_resp : Nat → List Chunk → List Nat → Except RespError (HttpResponse × List Chunk)
  | 0, _, _ => .error .IncompleteResponse
  | fuel + 1, s, buf =>
    match readStream (8000 - buf.length) s with
    | (.error _, _) => .error .ConnectionError
    | (.ok bs, s') =>
      if bs.length = 0 then .error .IncompleteResponse
      else
        match parse_response (buf ++ bs) with
        | .complete code hs rest => .ok (⟨code, hs, rest⟩, s')
        | .incomplete => read_headers_resp fuel s' (buf ++ bs)
        | .malformed => .error .MalformedResponse

/-- `response::get_content_length`. -/
def get_content_length_resp (r : HttpResponse) : Except RespError (Option Nat) :=
  match headerFirst contentLengthBytes r.headers with
  | none => .ok none
  | some v =>
    match parseNatBytes v with
    | some n => .ok (some n)
    | none => .error .InvalidContentLength

/-- `response::read_body` loop: with a Content-Length read exactly that
many bytes (over-delivery or early close is a mismatch); without one read
until the connection closes; reject bodies over `MAX_BODY_SIZE`. -/
def read_body_resp : Nat → List Chunk → List Nat → Option Nat → Except RespError (List Nat × List Chunk)
  | 0, _, _, _ => .error .ContentLengthMismatch
  | fuel + 1, s, body, cl =>
    if cl.isNone ∨ body.length < cl.getD 0 then
      match readStream 512 s with
      | (.error _, _) => .error .ConnectionError
      | (.ok bs, s') =>
        if bs.length = 0 then
          match cl with
          | none => .ok (body, s')
          | some _ => .error .ContentLengthMismatch
        else if (match cl with | some c => decide (c < body.length + bs.length) | none => false) then
          .error .ContentLengthMismatch
        else if MAX_BODY_SIZE < body.length + bs.length then .error .ResponseBodyTooLarge
        else read_body_resp fuel s' (body ++ bs) cl
    else .ok (body, s)

/-- Fuel bound for `read_body_resp`: total pending bytes plus one per
pending read event, plus slack. -/
def streamFuel (s : List Chunk) : Nat :=
  s.foldr (fun c a => (match c with | .data bs => bs.length | .ioErr => 0) + 1 + a) 2

def HEADbytes : List Nat := asciiBytes "HEAD"

/-- `response::read_from_stream`: read headers; unless the request method
was HEAD or the status is 1xx, 204 or 304, read the body. -/
def read_from_stream_resp (s : List Chunk) (method : List Nat) : Except RespError HttpResponse :=
  match read_headers_resp 8001 s [] with
  | .error e => .error e
  | .ok (r, s') =>
    if method = HEADbytes ∨ r.code < 200 ∨ r.code = 204 ∨ r.code = 304 then .ok r
    else
      match get_content_length_resp r with
      | .error e => .error e
      | .ok cl =>
        match read_body_resp (streamFuel s') s' r.body cl with
        | .error e => .error e
        | .ok (body', _) => .ok ⟨r.code, r.headers, body'⟩

/-! ## Upstream pool (main.rs, connect_to_upstream) -/

/-- Outcome of one `TcpStream::connect` wrapped in the 2s timeout. -/
inductive ConnectOutcome
  | success
  | failure
  | timedOut
deriving DecidableEq

/-- The two error exits of `connect_to_upstream`: the empty-available-set
exit ("All upstream servers are dead or have been tried") and the
while-guard exit ("All upstream servers failed during connection
attempts"). -/
inductive UpstreamError
  | NoUpstreamAvailable
  | AllUpstreamsFailed
deriving DecidableEq

/-- `available_upstreams`: indices neither dead nor already tried, in
increasing order as the source's filter over `0..total` collects them. -/
def availableUpstreams (total : Nat) (dead tried : Finset ℕ) : List ℕ :=
  (List.range total).filter (fun i => decide (i ∉ dead ∧ i ∉ tried))

/-- Random pick `available[rng.gen_range(0..len)]`. -/
def pickFrom (l : List ℕ) (r : Nat) : ℕ := l.getD (r % l.length) 0

/-- The upstream chosen this round: `available_upstreams[rng.gen_range(0..len)]`. -/
def chooseUpstream (total : Nat) (dead tried : Finset ℕ) (r : Nat) : ℕ :=
  pickFrom (availableUpstreams total dead tried) r

/-- The retry loop of `connect_to_upstream`.  `rand` supplies the random
draws, `conn` the per-index connect outcomes; returns the result together
with the final dead set and tried set.  A connect failure and a connect
timeout are separate match arms in the source with identical effect: mark
the index dead and retry. -/
def connectLoop (conn : ℕ → ConnectOutcome) (total : Nat) :
    Nat → List Nat → Finset ℕ → Finset ℕ → (UpstreamError ⊕ ℕ) × Finset ℕ × Finset ℕ
  | 0, _, dead, tried => (.inl .AllUpstreamsFailed, dead, tried)
  | fuel + 1, rand, dead, tried =>
    if tried.card < total then
      if availableUpstreams total dead tried = [] then (.inl .NoUpstreamAvailable, dead, tried)
      else
        match conn (chooseUpstream total dead tried (rand.headD 0)) with
        | .success => (.inr (chooseUpstream total dead tried (rand.headD 0)), dead,
            insert (chooseUpstream total dead tried (rand.headD 0)) tried)
        | .failure => connectLoop conn total fuel rand.tail
            (insert (chooseUpstream total dead tried (rand.headD 0)) dead)
            (insert (chooseUpstream total dead tried (rand.headD 0)) tried)
        | .timedOut => connectLoop conn total fuel rand.tail
            (insert (chooseUpstream total dead tried (rand.headD 0)) dead)
            (insert (chooseUpstream total dead tried (rand.headD 0)) tried)
    else (.inl .AllUpstreamsFailed, dead, tried)

/-- `connect_to_upstream` on a pool of `total` addresses with shared dead
set `dead`; the tried set starts empty and the loop runs until every
index was tried or none is available. -/
def connect_to_upstream (conn : ℕ → ConnectOutcome) (total : Nat) (rand : List Nat)
    (dead : Finset ℕ) : (UpstreamError ⊕ ℕ) × Finset ℕ × Finset ℕ :=
  connectLoop conn total (total + 1) rand dead ∅

/-! ## Connection handler (main.rs, handle_connection) -/

/-- Outcome of forwarding one request over a successfully connected
upstream: the `write_to_stream` call can fail, the timed response read
can fail or time out, or a response comes back. -/
inductive ForwardOutcome
  | writeErr
  | readErr
  | readTimeout
  | okResp
deriving DecidableEq

/-- A message sent to the client: a generated HTTP error status or the
relayed upstream response. -/
inductive Sent
  | errorStatus (code : Nat)
  | relayed
deriving DecidableEq

/-- The status mapping of `handle_connection`'s error match (main.rs
lines 249-256). -/
def errorStatusCode : ReqError → Nat
  | .IncompleteRequest _ => 400
  | .MalformedRequest => 400
  | .InvalidContentLength => 400
  | .ContentLengthMismatch => 400
  | .RequestBodyTooLarge => 413
  | .ConnectionError => 503

/-- The bounded retry loop of `handle_connection` (lines 275-343) plus its
post-loop 502 (lines 346-351).  One `List Nat` of random draws is consumed
per `connect_to_upstream` call and `fwd` gives each upstream's forwarding
outcome.  Returns (messages sent to the client, final dead set, whether
the connection stays open for the next request). -/
def forwardLoop (conn : ℕ → ConnectOutcome) (fwd : ℕ → ForwardOutcome) (total : Nat) :
    Nat → List (List Nat) → Finset ℕ → List Sent × Finset ℕ × Bool
  | 0, _, dead => ([.errorStatus 502], dead, false)
  | r + 1, rands, dead =>
    match connect_to_upstream conn total (rands.headD []) dead with
    | (.inl _, dead', _) =>
      if r = 0 then ([.errorStatus 502], dead', false)
      else forwardLoop conn fwd total r rands.tail dead'
    | (.inr idx, dead', _) =>
      match fwd idx with
      | .writeErr => forwardLoop conn fwd total r rands.tail (insert idx dead')
      | .readErr => forwardLoop conn fwd total r rands.tail (insert idx dead')
      | .readTimeout => forwardLoop conn fwd total r rands.tail (insert idx dead')
      | .okResp => ([.relayed], dead', true)

/-- Forward one request: retry budget `max_retries = total`. -/
def forwardRequest (conn : ℕ → ConnectOutcome) (fwd : ℕ → ForwardOutcome) (total : Nat)
    (rands : List (List Nat)) (dead : Finset ℕ) : List Sent × Finset ℕ × Bool :=
  forwardLoop conn fwd total total rands dead

/-- One iteration of `handle_connection`'s request loop: decode a request
from the client stream; a zero-byte close (`IncompleteRequest 0`) or a
client-side I/O error terminates the connection silently; other decode
errors send the mapped status and keep the connection; a decoded request
enters the forwarding retry loop. -/
def handleIteration (s : List Chunk) (conn : ℕ → ConnectOutcome) (fwd : ℕ → ForwardOutcome)
    (total : Nat) (rands : List (List Nat)) (dead : Finset ℕ) : List Sent × Finset ℕ × Bool :=
  match read_from_stream_req s with
  | .error (.IncompleteRequest 0) => ([], dead, false)
  | .error .ConnectionError => ([], dead, false)
  | .error e => ([.errorStatus (errorStatusCode e)], dead, true)
  | .ok _ => forwardRequest conn fwd total rands dead

/-! ## Pool and handler lemmas -/

theorem mem_availableUpstreams {total : Nat} {dead tried : Finset ℕ} {i : ℕ} :
    i ∈ availableUpstreams total dead tried ↔ i < total ∧ i ∉ dead ∧ i ∉ tried := by
  simp [availableUpstreams, List.mem_filter, List.mem_range]

theorem availableUpstreams_eq_nil {total : Nat} {dead tried : Finset ℕ} :
    availableUpstreams total dead tried = [] ↔ ∀ i, i < total → i ∈ dead ∨ i ∈ tried := by
  constructor
  · intro h i hi
    by_contra hc
    push_neg at hc
    have : i ∈ availableUpstreams total dead tried :=
      mem_availableUpstreams.mpr ⟨hi, hc.1, hc.2⟩
    simp [h] at this
  · intro h
    rcases hne : availableUpstreams total dead tried with _ | ⟨a, rest⟩
    · rfl
    · have ha : a ∈ availableUpstreams total dead tried := by rw [hne]; exact List.mem_cons_self a rest
      rcases mem_availableUpstreams.mp ha with ⟨h1, h2, h3⟩
      rcases h a h1 with hd | ht
      · exact absurd hd h2
      · exact absurd ht h3

theorem pickFrom_mem {l : List ℕ} (h : l ≠ []) (r : Nat) : pickFrom l r ∈ l := by
  have hlt : r % l.length < l.length := Nat.mod_lt _ (List.length_pos.mpr h)
  rw [pickFrom, List.getD_eq_getElem?_getD, List.getElem?_eq_getElem hlt]
  exact List.getElem_mem hlt

theorem connectLoop_invariant (conn : ℕ → ConnectOutcome) (total : Nat) :
    ∀ (fuel : Nat) (rand : List Nat) (dead tried : Finset ℕ),
      tried ⊆ Finset.range total → total ≤ tried.card + fuel →
      tried ⊆ (connectLoop conn total fuel rand dead tried).2.2 ∧
      (connectLoop conn total fuel rand dead tried).2.2 ⊆ Finset.range total ∧
      (connectLoop conn total fuel rand dead tried).2.1 ⊆
        dead ∪ (connectLoop conn total fuel rand dead tried).2.2 ∧
      (∀ idx, (connectLoop conn total fuel rand dead tried).1 = .inr idx →
        idx ∉ (connectLoop conn total fuel rand dead tried).2.1) ∧
      (∀ e, (connectLoop conn total fuel rand dead tried).1 = .inl e →
        availableUpstreams total (connectLoop conn total fuel rand dead tried).2.1
          (connectLoop conn total fuel rand dead tried).2.2 = []) := by
  intro fuel
  induction fuel with
  | zero =>
    intro rand dead tried hsub hfuel
    have heq : tried = Finset.range total := by
      apply Finset.eq_of_subset_of_card_le hsub
      simp only [Finset.card_range]
      omega
    simp only [connectLoop]
    refine ⟨Finset.Subset.refl _, hsub, Finset.subset_union_left, ?_, ?_⟩
    · intro idx hidx; cases hidx
    · intro e _
      rw [availableUpstreams_eq_nil]
      intro i hi
      right
      rw [heq]
      exact Finset.mem_range.mpr hi
  | succ fuel ih =>
    intro rand dead tried hsub hfuel
    by_cases hguard : tried.card < total
    · by_cases havail : availableUpstreams total dead tried = []
      · simp only [connectLoop, if_pos hguard, if_pos havail]
        refine ⟨Finset.Subset.refl _, hsub, Finset.subset_union_left, ?_, ?_⟩
        · intro idx hidx; cases hidx
        · intro e _; exact havail
      · have hmem : chooseUpstream total dead tried (rand.headD 0) ∈
            availableUpstreams total dead tried := pickFrom_mem havail _
        rcases mem_availableUpstreams.mp hmem with ⟨hlt, hnd, hnt⟩
        have hsub' : insert (chooseUpstream total dead tried (rand.headD 0)) tried ⊆
            Finset.range total := by
          intro j hj
          rcases Finset.mem_insert.mp hj with rfl | hj
          · exact Finset.mem_range.mpr hlt
          · exact hsub hj
        have hfuel' : total ≤
            (insert (chooseUpstream total dead tried (rand.headD 0)) tried).card + fuel := by
          rw [Finset.card_insert_of_not_mem hnt]; omega
        cases hconn : conn (chooseUpstream total dead tried (rand.headD 0)) <;>
          simp only [connectLoop, if_pos hguard, if_neg havail, hconn]
        · refine ⟨Finset.subset_insert _ _, hsub', Finset.subset_union_left, ?_, ?_⟩
          · intro j hj
            have : chooseUpstream total dead tried (rand.headD 0) = j := by
              injection hj
            rw [← this]
            exact hnd
          · intro e he; cases he
        · rcases ih rand.tail (insert (chooseUpstream total dead tried (rand.headD 0)) dead)
            (insert (chooseUpstream total dead tried (rand.headD 0)) tried) hsub' hfuel' with
            ⟨h1, h2, h3, h4, h5⟩
          refine ⟨(Finset.subset_insert _ _).trans h1, h2, ?_, h4, h5⟩
          intro j hj
          rcases Finset.mem_union.mp (h3 hj) with hj' | hj'
          · rcases Finset.mem_insert.mp hj' with rfl | hj''
            · exact Finset.mem_union_right _ (h1 (Finset.mem_insert_self _ _))
            · exact Finset.mem_union_left _ hj''
          · exact Finset.mem_union_right _ hj'
        · rcases ih rand.tail (insert (chooseUpstream total dead tried (rand.headD 0)) dead)
            (insert (chooseUpstream total dead tried (rand.headD 0)) tried) hsub' hfuel' with
            ⟨h1, h2, h3, h4, h5⟩
          refine ⟨(Finset.subset_insert _ _).trans h1, h2, ?_, h4, h5⟩
          intro j hj
          rcases Finset.mem_union.mp (h3 hj) with hj' | hj'
          · rcases Finset.mem_insert.mp hj' with rfl | hj''
            · exact Finset.mem_union_right _ (h1 (Finset.mem_insert_self _ _))
            · exact Finset.mem_union_left _ hj''
          · exact Finset.mem_union_right _ hj'
    · have heq : tried = Finset.range total := by
        apply Finset.eq_of_subset_of_card_le hsub
        simp only [Finset.card_range]
        omega
      simp only [connectLoop, if_neg hguard]
      refine ⟨Finset.Subset.refl _, hsub, Finset.subset_union_left, ?_, ?_⟩
      · intro idx hidx; cases hidx
      · intro e _
        rw [availableUpstreams_eq_nil]
        intro i hi
        right
        rw [heq]
        exact Finset.mem_range.mpr hi

/-- Claim C1: for a pool of `total` upstream addresses with a dead set of
fewer than `total` indices, one call of `connect_to_upstream` never
returns an index that is in the dead set at the moment it is chosen (the
returned index is absent even from the final dead set), and on failure it
has first tried every index that was live at entry, the available set
being empty at either error exit (the spec's `NoUpstreamAvailable`
condition). -/
theorem connect_to_upstream_selection (conn : ℕ → ConnectOutcome) (total : Nat)
    (rand : List Nat) (dead₀ : Finset ℕ)
    (hsub : dead₀ ⊆ Finset.range total) (hlive : dead₀.card < total) :
    (∀ idx d' t', connect_to_upstream conn total rand dead₀ = (.inr idx, d', t') → idx ∉ d') ∧
    (∀ e d' t', connect_to_upstream conn total rand dead₀ = (.inl e, d', t') →
      availableUpstreams total d' t' = [] ∧ ∀ i, i < total → i ∉ dead₀ → i ∈ t') := by
  rcases connectLoop_invariant conn total (total + 1) rand dead₀ ∅
    (Finset.empty_subset _) (by simp) with ⟨h1, h2, h3, h4, h5⟩
  constructor
  · intro idx d' t' h
    have h' : connectLoop conn total (total + 1) rand dead₀ ∅ = (.inr idx, d', t') := h
    have h4' := h4 idx
    rw [h'] at h4'
    exact h4' rfl
  · intro e d' t' h
    have h' : connectLoop conn total (total + 1) rand dead₀ ∅ = (.inl e, d', t') := h
    have h5' := h5 e
    rw [h'] at h3 h5'
    have hav : availableUpstreams total d' t' = [] := h5' rfl
    refine ⟨hav, ?_⟩
    intro i hi hnd
    rcases availableUpstreams_eq_nil.mp hav i hi with hmem | hmem
    · rcases Finset.mem_union.mp (h3 hmem) with hx | hx
      · exact absurd hx hnd
      · exact hx
    · exact hmem

def wConn : ℕ → ConnectOutcome := fun i => if i = 2 then .success else .failure

/-- Witness for `connect_to_upstream_selection`: three upstreams, index 0
dead at entry, index 1 failing and index 2 healthy. -/
theorem connect_to_upstream_selection_witness :
    (({0} : Finset ℕ) ⊆ Finset.range 3 ∧ ({0} : Finset ℕ).card < 3) ∧
      2 ∉ ({0, 1} : Finset ℕ) :=
  ⟨⟨by decide, by decide⟩,
    (connect_to_upstream_selection wConn 3 [0, 0, 0] {0} (by decide) (by decide)).1
      2 {0, 1} {1, 2} (by decide)⟩

theorem connectLoop_dead_mono (conn : ℕ → ConnectOutcome) (total : Nat) :
    ∀ (fuel : Nat) (rand : List Nat) (dead tried : Finset ℕ),
      dead ⊆ (connectLoop conn total fuel rand dead tried).2.1 := by
  intro fuel
  induction fuel with
  | zero => intro rand dead tried; simp [connectLoop]
  | succ fuel ih =>
    intro rand dead tried
    by_cases hguard : tried.card < total
    · by_cases havail : availableUpstreams total dead tried = []
      · simp [connectLoop, if_pos hguard, if_pos havail]
      · cases hconn : conn (chooseUpstream total dead tried (rand.headD 0)) <;>
          simp only [connectLoop, if_pos hguard, if_neg havail, hconn]
        · exact Finset.Subset.refl _
        · exact (Finset.subset_insert _ _).trans
            (ih rand.tail (insert (chooseUpstream total dead tried (rand.headD 0)) dead)
              (insert (chooseUpstream total dead tried (rand.headD 0)) tried))
        · exact (Finset.subset_insert _ _).trans
            (ih rand.tail (insert (chooseUpstream total dead tried (rand.headD 0)) dead)
              (insert (chooseUpstream total dead tried (rand.headD 0)) tried))
    · simp [connectLoop, if_neg hguard]

theorem forwardLoop_dead_mono (conn : ℕ → ConnectOutcome) (fwd : ℕ → ForwardOutcome)
    (total : Nat) :
    ∀ (r : Nat) (rands : List (List Nat)) (dead : Finset ℕ),
      dead ⊆ (forwardLoop conn fwd total r rands dead).2.1 := by
  intro r
  induction r with
  | zero => intro rands dead; simp [forwardLoop]
  | succ r ih =>
    intro rands dead
    rcases hc : connect_to_upstream conn total (rands.headD []) dead with ⟨res, dead', tried'⟩
    have hmono : dead ⊆ dead' := by
      have hm := connectLoop_dead_mono conn total (total + 1) (rands.headD []) dead ∅
      have hc' : connectLoop conn total (total + 1) (rands.headD []) dead ∅ =
          (res, dead', tried') := hc
      rw [hc'] at hm
      exact hm
    rw [forwardLoop, hc]
    cases res with
    | inl e =>
      by_cases hr : r = 0
      · simpa [hr] using hmono
      · simpa [hr] using hmono.trans (ih rands.tail dead')
    | inr idx =>
      cases hfwd : fwd idx <;> simp only [hfwd]
      · exact hmono.trans ((Finset.subset_insert _ _).trans (ih rands.tail (insert idx dead')))
      · exact hmono.trans ((Finset.subset_insert _ _).trans (ih rands.tail (insert idx dead')))
      · exact hmono.trans ((Finset.subset_insert _ _).trans (ih rands.tail (insert idx dead')))
      · exact hmono

theorem handleIteration_dead_mono (s : List Chunk) (conn : ℕ → ConnectOutcome)
    (fwd : ℕ → ForwardOutcome) (total : Nat) (rands : List (List Nat)) (dead : Finset ℕ) :
    dead ⊆ (handleIteration s conn fwd total rands dead).2.1 := by
  rw [handleIteration]
  cases h : read_from_stream_req s with
  | error e =>
    cases e with
    | IncompleteRequest n => cases n <;> simp
    | MalformedRequest => simp
    | InvalidContentLength => simp
    | ContentLengthMismatch => simp
    | RequestBodyTooLarge => simp
    | ConnectionError => simp
  | ok r => exact forwardLoop_dead_mono conn fwd total total rands dead

/-- Claim C9: the dead set is monotone under every core operation — the
connect retry loop, the forwarding retry loop and a whole handler
iteration only ever insert indices (on connect failure or timeout, write
failure, response-read failure or timeout) and never remove one, so an
index marked dead stays dead. -/
theorem dead_set_monotone :
    (∀ (conn : ℕ → ConnectOutcome) (total fuel : Nat) (rand : List Nat) (dead tried : Finset ℕ),
      dead ⊆ (connectLoop conn total fuel rand dead tried).2.1) ∧
    (∀ (conn : ℕ → ConnectOutcome) (fwd : ℕ → ForwardOutcome) (total r : Nat)
      (rands : List (List Nat)) (dead : Finset ℕ),
      dead ⊆ (forwardLoop conn fwd total r rands dead).2.1) ∧
    (∀ (s : List Chunk) (conn : ℕ → ConnectOutcome) (fwd : ℕ → ForwardOutcome) (total : Nat)
      (rands : List (List Nat)) (dead : Finset ℕ),
      dead ⊆ (handleIteration s conn fwd total rands dead).2.1) :=
  ⟨fun conn total fuel rand dead tried => connectLoop_dead_mono conn total fuel rand dead tried,
   fun conn fwd total r rands dead => forwardLoop_dead_mono conn fwd total r rands dead,
   fun s conn fwd total rands dead => handleIteration_dead_mono s conn fwd total rands dead⟩

theorem countP_replaceHeader (name v : List Nat) :
    ∀ hs : List (List Nat × List Nat),
      (replaceHeader name v hs).countP (fun p => decide (p.1 = name)) = 1 := by
  intro hs
  induction hs with
  | nil => simp [replaceHeader]
  | cons p rest ih =>
    rcases p with ⟨n, w⟩
    by_cases hn : n = name
    · simp only [replaceHeader, if_pos hn, List.countP_cons, hn]
      have hzero : (rest.filter (fun p => decide (p.1 ≠ name))).countP
          (fun p => decide (p.1 = name)) = 0 := by
        rw [List.countP_eq_zero]
        intro a ha
        rcases List.mem_filter.mp ha with ⟨_, hne⟩
        simpa using hne
      simp [hzero]
    · simp only [replaceHeader, if_neg hn, List.countP_cons]
      simp [hn, ih]

theorem headerFirst_replaceHeader (name v : List Nat) :
    ∀ hs : List (List Nat × List Nat), headerFirst name (replaceHeader name v hs) = some v := by
  intro hs
  induction hs with
  | nil => simp [replaceHeader, headerFirst]
  | cons p rest ih =>
    rcases p with ⟨n, w⟩
    by_cases hn : n = name
    · simp [replaceHeader, if_pos hn, headerFirst, hn]
    · simp [replaceHeader, if_neg hn, headerFirst, hn, ih]

/-- Claim C10: applying `extend_header_value` with the X-Forwarded-For
name and the client IP leaves exactly one X-Forwarded-For header line;
its value is the first original value followed by ", " and the IP when
the header was present, and the IP alone when it was absent, and any
further duplicate lines are removed. -/
theorem extend_header_value_xff (r : HttpRequest) (ip : List Nat) :
    (extend_header_value r xffBytes ip).headers.countP
        (fun p => decide (p.1 = xffBytes)) = 1 ∧
    headerFirst xffBytes (extend_header_value r xffBytes ip).headers =
      some (match headerFirst xffBytes r.headers with
            | some v => v ++ 44 :: 32 :: ip
            | none => ip) := by
  constructor
  · exact countP_replaceHeader xffBytes _ r.headers
  · exact headerFirst_replaceHeader xffBytes _ r.headers

/-- Claim C8: a client stream that closes before delivering any header
byte decodes to `IncompleteRequest 0`, which the handler treats as a
clean end of conversation: the connection is closed and nothing is sent
to the client — unlike a malformed request, which gets a 400 response on
a connection that stays open. -/
theorem zero_bytes_clean_close :
    read_from_stream_req [] = .error (.IncompleteRequest 0) ∧
    (∀ rest, read_from_stream_req (Chunk.data [] :: rest) = .error (.IncompleteRequest 0)) ∧
    (∀ (conn : ℕ → ConnectOutcome) (fwd : ℕ → ForwardOutcome) (total : Nat)
      (rands : List (List Nat)) (dead : Finset ℕ),
      handleIteration [] conn fwd total rands dead = ([], dead, false)) ∧
    (∀ (conn : ℕ → ConnectOutcome) (fwd : ℕ → ForwardOutcome) (total : Nat)
      (rands : List (List Nat)) (dead : Finset ℕ) rest,
      handleIteration (Chunk.data [] :: rest) conn fwd total rands dead = ([], dead, false)) ∧
    (∀ (conn : ℕ → ConnectOutcome) (fwd : ℕ → ForwardOutcome) (total : Nat)
      (rands : List (List Nat)) (dead : Finset ℕ),
      handleIteration [Chunk.data (asciiBytes "XYZ\r\n\r\n")] conn fwd total rands dead =
        ([.errorStatus 400], dead, true)) :=
  ⟨rfl, fun _ => rfl, fun _ _ _ _ _ => rfl, fun _ _ _ _ _ _ => rfl, fun _ _ _ _ _ => rfl⟩

/-! ## Error-to-status mapping (claim C4) -/

theorem forwardLoop_sent (conn : ℕ → ConnectOutcome) (fwd : ℕ → ForwardOutcome) (total : Nat) :
    ∀ (r : Nat) (rands : List (List Nat)) (dead : Finset ℕ),
      ((forwardLoop conn fwd total r rands dead).2.2 = false →
        (forwardLoop conn fwd total r rands dead).1 = [.errorStatus 502]) ∧
      ((forwardLoop conn fwd total r rands dead).2.2 = true →
        (forwardLoop conn fwd total r rands dead).1 = [.relayed]) := by
  intro r
  induction r with
  | zero => intro rands dead; simp [forwardLoop]
  | succ r ih =>
    intro rands dead
    rcases hc : connect_to_upstream conn total (rands.headD []) dead with ⟨res, dead', tried'⟩
    rw [forwardLoop, hc]
    cases res with
    | inl e =>
      by_cases hr : r = 0
      · simp [hr]
      · simp only [if_neg hr]
        exact ih rands.tail dead'
    | inr idx =>
      cases hfwd : fwd idx <;> simp only [hfwd]
      · exact ih rands.tail (insert idx dead')
      · exact ih rands.tail (insert idx dead')
      · exact ih rands.tail (insert idx dead')
      · simp

/-- Claim C4 (amended): the handler's client-facing statuses are 400 for
a truncated (mid-request), malformed, invalid- or mismatched-
Content-Length request, 413 for an oversized body, and 502 when
forwarding fails; but a client transport error while reading sends no
response at all — its arm returns before the status mapping (whose
ConnectionError row says 503) can ever be consulted — and the connection
is closed. -/
theorem error_status_mapping :
    (∀ (s : List Chunk) (conn : ℕ → ConnectOutcome) (fwd : ℕ → ForwardOutcome) (total : Nat)
      (rands : List (List Nat)) (dead : Finset ℕ) (e : ReqError),
      read_from_stream_req s = .error e → e ≠ .IncompleteRequest 0 → e ≠ .ConnectionError →
      handleIteration s conn fwd total rands dead =
        ([.errorStatus (errorStatusCode e)], dead, true)) ∧
    ((∀ n, errorStatusCode (.IncompleteRequest n) = 400) ∧
      errorStatusCode .MalformedRequest = 400 ∧
      errorStatusCode .InvalidContentLength = 400 ∧
      errorStatusCode .ContentLengthMismatch = 400 ∧
      errorStatusCode .RequestBodyTooLarge = 413 ∧
      errorStatusCode .ConnectionError = 503) ∧
    (∀ (s : List Chunk) (conn : ℕ → ConnectOutcome) (fwd : ℕ → ForwardOutcome) (total : Nat)
      (rands : List (List Nat)) (dead : Finset ℕ),
      read_from_stream_req s = .error .ConnectionError →
      handleIteration s conn fwd total rands dead = ([], dead, false)) ∧
    (∀ (s : List Chunk) (conn : ℕ → ConnectOutcome) (fwd : ℕ → ForwardOutcome) (total : Nat)
      (rands : List (List Nat)) (dead : Finset ℕ) (r : HttpRequest),
      read_from_stream_req s = .ok r →
      handleIteration s conn fwd total rands dead = forwardRequest conn fwd total rands dead) ∧
    (∀ (conn : ℕ → ConnectOutcome) (fwd : ℕ → ForwardOutcome) (total : Nat)
      (rands : List (List Nat)) (dead : Finset ℕ),
      (forwardRequest conn fwd total rands dead).2.2 = false →
      (forwardRequest conn fwd total rands dead).1 = [.errorStatus 502]) := by
  refine ⟨?_, ⟨fun n => rfl, rfl, rfl, rfl, rfl, rfl⟩, ?_, ?_, ?_⟩
  · intro s conn fwd total rands dead e h hne hnc
    simp only [handleIteration, h]
  · intro s conn fwd total rands dead h
    simp only [handleIteration, h]
  · intro s conn fwd total rands dead r h
    simp only [handleIteration, h]
  · intro conn fwd total rands dead h
    exact (forwardLoop_sent conn fwd total total rands dead).1 h

/-- Counterexample to claim C4 as stated: on a client-side I/O error
while reading the request the handler sends nothing at all (and closes
the connection) instead of the claimed 503 response. -/
theorem error_status_counterexample :
    read_from_stream_req [Chunk.ioErr] = .error .ConnectionError ∧
    handleIteration [Chunk.ioErr] (fun _ => ConnectOutcome.success)
      (fun _ => ForwardOutcome.okResp) 1 [] ∅ = ([], ∅, false) ∧
    ([] : List Sent) ≠ [.errorStatus 503] := ⟨rfl, rfl, by decide⟩

/-- Witness for `error_status_mapping`: a malformed request line draws a
400 response and the connection stays open. -/
theorem error_status_mapping_witness :
    read_from_stream_req [Chunk.data (asciiBytes "XYZ\r\n\r\n")] = .error .MalformedRequest ∧
    handleIteration [Chunk.data (asciiBytes "XYZ\r\n\r\n")] (fun _ => ConnectOutcome.success)
      (fun _ => ForwardOutcome.okResp) 1 [] ∅ =
      ([.errorStatus (errorStatusCode .MalformedRequest)], ∅, true) :=
  ⟨by decide, error_status_mapping.1 [Chunk.data (asciiBytes "XYZ\r\n\r\n")]
    (fun _ => ConnectOutcome.success) (fun _ => ForwardOutcome.okResp) 1 [] ∅
    .MalformedRequest (by decide) (by decide) (by decide)⟩

/-! ## Content-Length enforcement (claim C3) and size limits (claim C7) -/

/-- Claim C3 (code bug): when body bytes beyond the declared
Content-Length arrive in the same read as the header block,
`read_from_stream` returns Ok with a body longer than the declared
length: `read_headers` stores the leftover bytes as the body and
`read_body`'s while guard is already false, so its over-delivery check
never runs.  By contrast, over-delivery during the body-read phase (here
Content-Length 5, bytes arriving as "hell" then "oXYZ") is caught as
`ContentLengthMismatch`, and so is a close before the declared length. -/
theorem request_body_leftover_bug :
    read_from_stream_req
        [Chunk.data (asciiBytes "POST / HTTP/1.1\r\ncontent-length: 1\r\n\r\nABCDE")] =
      .ok ⟨asciiBytes "POST", asciiBytes "/",
        [(contentLengthBytes, asciiBytes "1")], asciiBytes "ABCDE"⟩ ∧
    (asciiBytes "ABCDE").length = 5 ∧
    parseNatBytes (asciiBytes "1") = some 1 ∧
    read_from_stream_req
        [Chunk.data (asciiBytes "POST / HTTP/1.1\r\ncontent-length: 5\r\n\r\n"),
         Chunk.data (asciiBytes "hell"), Chunk.data (asciiBytes "oXYZ")] =
      .error .ContentLengthMismatch ∧
    read_from_stream_req
        [Chunk.data (asciiBytes "POST / HTTP/1.1\r\ncontent-length: 10\r\n\r\nhello")] =
      .error .ContentLengthMismatch := by
  refine ⟨by decide, by decide, by decide, by decide, by decide⟩

def manyHeadersBytes : List Nat :=
  asciiBytes "GET / HTTP/1.1\r\n" ++
    (List.replicate 33 (asciiBytes "a: b\r\n")).foldr (· ++ ·) [] ++ asciiBytes "\r\n"

set_option maxRecDepth 40000

/-- Counterexample to claim C7 as stated: a request with 33 headers
exceeds `MAX_NUM_HEADERS = 32` but fails with `MalformedRequest`
(httparse's TooManyHeaders), not with a dedicated too-large error
distinct from the malformed kind. -/
theorem too_many_headers_counterexample :
    read_from_stream_req [Chunk.data manyHeadersBytes] = .error .MalformedRequest ∧
    read_from_stream_req [Chunk.data manyHeadersBytes] ≠ .error .RequestBodyTooLarge := by
  refine ⟨by decide, by decide⟩

theorem splitCRLF_length :
    ∀ (buf line rest : List Nat), splitCRLF buf = some (line, rest) →
      buf.length = line.length + rest.length + 2 := by
  intro buf
  induction buf with
  | nil => intro line rest h; simp [splitCRLF] at h
  | cons b tl ih =>
    intro line rest h
    rw [splitCRLF] at h
    by_cases hb : b = 13 ∧ tl.head? = some 10
    · rw [if_pos hb] at h
      injection h with h'
      injection h' with ha hb'
      subst ha
      subst hb'
      cases tl with
      | nil => simp at hb
      | cons c tl' =>
        simp only [List.length_cons, List.length_nil, List.tail_cons]
        omega
    · rw [if_neg hb] at h
      cases hs : splitCRLF tl with
      | none => rw [hs] at h; simp at h
      | some p =>
        rcases p with ⟨l', r'⟩
        rw [hs] at h
        simp only [Option.map_some'] at h
        injection h with h'
        injection h' with ha hb'
        subst ha
        subst hb'
        have := ih l' r' hs
        simp [this]
        omega

theorem readStream_ok_length :
    ∀ (cap : Nat) (s : List Chunk) (bs : List Nat) (s' : List Chunk),
      readStream cap s = (.ok bs, s') → bs.length ≤ cap := by
  intro cap s bs s' h
  cases s with
  | nil =>
    rw [readStream] at h
    injection h with h1 h2
    injection h1 with h1
    subst h1
    simp
  | cons c rest =>
    cases c with
    | ioErr =>
      rw [readStream] at h
      injection h with h1 h2
      cases h1
    | data d =>
      rw [readStream] at h
      by_cases hd : d.length ≤ cap
      · rw [if_pos hd] at h
        injection h with h1 h2
        injection h1 with h1
        subst h1
        exact hd
      · rw [if_neg hd] at h
        injection h with h1 h2
        injection h1 with h1
        subst h1
        simp only [List.length_take]
        omega

theorem parseHeadersLoop_complete_bounds :
    ∀ (fuel : Nat) (buf : List Nat) (acc : List (List Nat × List Nat))
      (hs : List (List Nat × List Nat)) (rest : List Nat),
      acc.length ≤ 32 →
      parseHeadersLoop fuel buf acc = .complete hs rest →
      hs.length ≤ 32 ∧ rest.length ≤ buf.length := by
  intro fuel
  induction fuel with
  | zero => intro buf acc hs rest hacc h; cases h
  | succ fuel ih =>
    intro buf acc hs rest hacc h
    rw [parseHeadersLoop] at h
    cases h1 : splitCRLF buf with
    | none => simp only [h1] at h; cases h
    | some p =>
      rcases p with ⟨line, rest1⟩
      simp only [h1] at h
      have hlen := splitCRLF_length buf line rest1 h1
      by_cases hline : line = []
      · rw [if_pos hline] at h
        injection h with ha hb
        subst ha
        subst hb
        refine ⟨by simpa using hacc, by omega⟩
      · rw [if_neg hline] at h
        by_cases hcnt : 32 ≤ acc.length
        · rw [if_pos hcnt] at h; cases h
        · rw [if_neg hcnt] at h
          cases h2 : parseHeaderLine line with
          | none => simp only [h2] at h; cases h
          | some nv =>
            simp only [h2] at h
            have := ih rest1 (nv :: acc) hs rest (by simp; omega) h
            exact ⟨this.1, by omega⟩

theorem parse_request_complete_bounds :
    ∀ (buf m u : List Nat) (hs : List (List Nat × List Nat)) (rest : List Nat),
      parse_request buf = .complete m u hs rest →
      hs.length ≤ 32 ∧ rest.length ≤ buf.length := by
  intro buf m u hs rest h
  rw [parse_request] at h
  cases h1 : splitCRLF buf with
  | none => simp only [h1] at h; cases h
  | some p =>
    rcases p with ⟨line, rest1⟩
    simp only [h1] at h
    have hlen := splitCRLF_length buf line rest1 h1
    cases h2 : parseRequestLine line with
    | none => simp only [h2] at h; cases h
    | some mu =>
      rcases mu with ⟨m', u'⟩
      simp only [h2] at h
      cases h3 : parseHeadersLoop (rest1.length + 1) rest1 [] with
      | complete hs' rest' =>
        simp only [h3] at h
        injection h with ha hb hc hd
        subst hc
        subst hd
        have := parseHeadersLoop_complete_bounds (rest1.length + 1) rest1 [] hs' rest'
          (by simp) h3
        exact ⟨this.1, by omega⟩
      | incomplete => simp only [h3] at h; cases h
      | malformed => simp only [h3] at h; cases h

theorem read_headers_req_ok_bounds :
    ∀ (fuel : Nat) (s : List Chunk) (buf : List Nat) (r : HttpRequest) (s' : List Chunk),
      buf.length ≤ 8000 →
      read_headers_req fuel s buf = .ok (r, s') →
      r.headers.length ≤ 32 ∧ r.body.length ≤ 8000 := by
  intro fuel
  induction fuel with
  | zero => intro s buf r s' hb h; cases h
  | succ fuel ih =>
    intro s buf r s' hb h
    rw [read_headers_req] at h
    rcases hr : readStream (8000 - buf.length) s with ⟨res, s2⟩
    cases res with
    | error e => simp only [hr] at h; cases h
    | ok bs =>
      simp only [hr] at h
      have hbs := readStream_ok_length (8000 - buf.length) s bs s2 hr
      by_cases hz : bs.length = 0
      · rw [if_pos hz] at h; cases h
      · rw [if_neg hz] at h
        cases hp : parse_request (buf ++ bs) with
        | complete m u hs rest =>
          simp only [hp] at h
          injection h with h'
          injection h' with ha hb'
          have hbnd := parse_request_complete_bounds (buf ++ bs) m u hs rest hp
          rw [← ha]
          refine ⟨hbnd.1, ?_⟩
          have hlen := hbnd.2
          simp only [List.length_append] at hlen
          simp only
          omega
        | incomplete =>
          simp only [hp] at h
          exact ih s2 (buf ++ bs) r s' (by simp; omega) h
        | malformed => simp only [hp] at h; cases h

theorem read_body_req_ok_le :
    ∀ (fuel : Nat) (s : List Chunk) (body : List Nat) (cl : Nat)
      (body' : List Nat) (s' : List Chunk),
      read_body_req fuel s body cl = .ok (body', s') →
      body'.length ≤ max cl body.length := by
  intro fuel
  induction fuel with
  | zero => intro s body cl body' s' h; cases h
  | succ fuel ih =>
    intro s body cl body' s' h
    rw [read_body_req] at h
    by_cases hlt : body.length < cl
    · rw [if_pos hlt] at h
      rcases hr : readStream (min 512 cl) s with ⟨res, s2⟩
      cases res with
      | error e => simp only [hr] at h; cases h
      | ok bs =>
        simp only [hr] at h
        by_cases hz : bs.length = 0
        · rw [if_pos hz] at h; cases h
        · rw [if_neg hz] at h
          by_cases hover : cl < body.length + bs.length
          · rw [if_pos hover] at h; cases h
          · rw [if_neg hover] at h
            have hrec := ih s2 (body ++ bs) cl body' s' h
            have hle : (body ++ bs).length ≤ cl := by simp; omega
            rw [Nat.max_eq_left hle] at hrec
            exact hrec.trans (Nat.le_max_left _ _)
    · rw [if_neg hlt] at h
      injection h with h'
      injection h' with ha hb
      subst ha
      exact Nat.le_max_right _ _

/-- Claim C7 (amended): no oversized input decodes successfully — any
successfully decoded request has at most 32 headers and a body of at
most `MAX_BODY_SIZE` bytes — and a declared Content-Length above
`MAX_BODY_SIZE` draws the dedicated `RequestBodyTooLarge` error; but
only the body limit has a dedicated error kind: header-count overflow
surfaces as `MalformedRequest` (httparse TooManyHeaders) and
header-block overflow as `IncompleteRequest` (the full buffer makes the
next read return zero bytes). -/
theorem size_limit_bounds :
    (∀ (s : List Chunk) (r : HttpRequest),
      read_from_stream_req s = .ok r →
      r.headers.length ≤ 32 ∧ r.body.length ≤ MAX_BODY_SIZE) ∧
    (∀ (s : List Chunk) (r : HttpRequest) (s' : List Chunk) (cl : Nat),
      read_headers_req 8001 s [] = .ok (r, s') →
      get_content_length_req r = .ok (some cl) → MAX_BODY_SIZE < cl →
      read_from_stream_req s = .error .RequestBodyTooLarge) := by
  constructor
  · intro s r h
    rw [read_from_stream_req] at h
    cases h1 : read_headers_req 8001 s [] with
    | error e => simp only [h1] at h; cases h
    | ok p =>
      rcases p with ⟨r0, s2⟩
      simp only [h1] at h
      have hb := read_headers_req_ok_bounds 8001 s [] r0 s2 (by simp) h1
      cases h2 : get_content_length_req r0 with
      | error e => simp only [h2] at h; cases h
      | ok clo =>
        cases clo with
        | none =>
          simp only [h2] at h
          injection h with h'
          subst h'
          exact ⟨hb.1, hb.2.trans (by norm_num [MAX_BODY_SIZE])⟩
        | some cl =>
          simp only [h2] at h
          by_cases hcl : MAX_BODY_SIZE < cl
          · rw [if_pos hcl] at h; cases h
          · rw [if_neg hcl] at h
            cases h3 : read_body_req (cl + 1) s2 r0.body cl with
            | error e => simp only [h3] at h; cases h
            | ok p2 =>
              rcases p2 with ⟨body', s3⟩
              simp only [h3] at h
              injection h with h'
              subst h'
              have hble := read_body_req_ok_le (cl + 1) s2 r0.body cl body' s3 h3
              refine ⟨hb.1, ?_⟩
              have h8 : r0.body.length ≤ 8000 := hb.2
              simp only [MAX_BODY_SIZE] at hcl ⊢
              have hmx : max cl r0.body.length ≤ 10000000 :=
                Nat.max_le.mpr ⟨by omega, by omega⟩
              exact hble.trans hmx
  · intro s r s' cl h1 h2 h3
    rw [read_from_stream_req]
    simp only [h1, h2]
    rw [if_pos h3]

/-- Witness for `size_limit_bounds`: a small well-formed GET decodes
within both limits. -/
theorem size_limit_bounds_witness :
    read_from_stream_req [Chunk.data (asciiBytes "GET / HTTP/1.1\r\nhost: a\r\n\r\n")] =
      .ok ⟨asciiBytes "GET", asciiBytes "/", [(asciiBytes "host", asciiBytes "a")], []⟩ ∧
    (HttpRequest.mk (asciiBytes "GET") (asciiBytes "/")
        [(asciiBytes "host", asciiBytes "a")] []).headers.length ≤ 32 ∧
    (HttpRequest.mk (asciiBytes "GET") (asciiBytes "/")
        [(asciiBytes "host", asciiBytes "a")] []).body.length ≤ MAX_BODY_SIZE :=
  ⟨by decide,
    (size_limit_bounds.1 [Chunk.data (asciiBytes "GET / HTTP/1.1\r\nhost: a\r\n\r\n")]
      ⟨asciiBytes "GET", asciiBytes "/", [(asciiBytes "host", asciiBytes "a")], []⟩
      (by decide)).1,
    (size_limit_bounds.1 [Chunk.data (asciiBytes "GET / HTTP/1.1\r\nhost: a\r\n\r\n")]
      ⟨asciiBytes "GET", asciiBytes "/", [(asciiBytes "host", asciiBytes "a")], []⟩
      (by decide)).2⟩

/-! ## Response bodies for HEAD / 1xx / 204 / 304 (claim C5) -/

/-- Counterexample to claim C5 as stated: a 304 response whose server
nevertheless sends body bytes in the same read as the header block
decodes with a non-empty body — `read_headers` keeps the leftover bytes
as the body and the HEAD/1xx/204/304 branch merely skips `read_body`
without clearing them. -/
theorem response_special_body_counterexample :
    (read_from_stream_resp
        [Chunk.data (asciiBytes "HTTP/1.1 304 Not Modified\r\ncontent-length: 5\r\n\r\nhello")]
        (asciiBytes "GET")).map HttpResponse.body = .ok (asciiBytes "hello") ∧
    asciiBytes "hello" ≠ ([] : List Nat) := ⟨by decide, by decide⟩

/-- Claim C5 (amended): for a response to a HEAD request, or with status
below 200 or equal to 204 or 304, the decoded body is empty regardless
of any Content-Length header, provided the server sends no bytes beyond
the header block while the headers are being read (as a compliant server
does); any Content-Length header present is never consulted on this
path. -/
theorem response_special_empty_body (hb : List Nat) (rest : List Chunk) (method : List Nat)
    (code : Nat) (hs : List (List Nat × List Nat))
    (hparse : parse_response hb = .complete code hs [])
    (hlen : hb.length ≤ 8000) (hne : hb ≠ [])
    (hspecial : method = HEADbytes ∨ code < 200 ∨ code = 204 ∨ code = 304) :
    read_from_stream_resp (Chunk.data hb :: rest) method = .ok ⟨code, hs, []⟩ := by
  have hread : readStream 8000 (Chunk.data hb :: rest) = (.ok hb, rest) := by
    rw [readStream, if_pos hlen]
  have hzero : ¬ hb.length = 0 := by
    intro hc
    exact hne (List.length_eq_zero.mp hc)
  have hh : read_headers_resp 8001 (Chunk.data hb :: rest) [] = .ok (⟨code, hs, []⟩, rest) := by
    rw [show (8001 : Nat) = 8000 + 1 from rfl, read_headers_resp]
    simp only [List.length_nil, Nat.sub_zero, hread]
    rw [if_neg hzero]
    simp only [List.nil_append, hparse]
  rw [read_from_stream_resp]
  simp only [hh]
  rw [if_pos hspecial]

/-- Witness for `response_special_empty_body`: a 304 response carrying a
Content-Length header but no body bytes decodes with an empty body. -/
theorem response_special_empty_body_witness :
    parse_response (asciiBytes "HTTP/1.1 304 Not Modified\r\ncontent-length: 5\r\n\r\n") =
      .complete 304 [(contentLengthBytes, asciiBytes "5")] [] ∧
    read_from_stream_resp
      [Chunk.data (asciiBytes "HTTP/1.1 304 Not Modified\r\ncontent-length: 5\r\n\r\n")]
      (asciiBytes "GET") = .ok ⟨304, [(contentLengthBytes, asciiBytes "5")], []⟩ :=
  ⟨by decide,
    response_special_empty_body
      (asciiBytes "HTTP/1.1 304 Not Modified\r\ncontent-length: 5\r\n\r\n") []
      (asciiBytes "GET") 304 [(contentLengthBytes, asciiBytes "5")]
      (by decide) (by decide) (by decide) (by decide)⟩

/-! ## Decode-then-encode round trip (claim C2) -/

theorem splitByte_append (sep : Nat) :
    ∀ (l r : List Nat), sep ∉ l → splitByte sep (l ++ sep :: r) = some (l, r) := by
  intro l
  induction l with
  | nil => intro r _; simp [splitByte]
  | cons a tl ih =>
    intro r hmem
    have ha : ¬ a = sep := by
      intro hc
      exact hmem (by rw [hc]; exact List.mem_cons_self _ _)
    rw [List.cons_append, splitByte, if_neg ha,
      ih r (fun hc => hmem (List.mem_cons_of_mem _ hc))]
    rfl

theorem splitCRLF_append :
    ∀ (l r : List Nat), 13 ∉ l → splitCRLF (l ++ 13 :: 10 :: r) = some (l, r) := by
  intro l
  induction l with
  | nil => intro r _; simp [splitCRLF]
  | cons a tl ih =>
    intro r hmem
    have ha : ¬ (a = 13 ∧ ((tl ++ 13 :: 10 :: r).head? = some 10)) := by
      intro hc
      exact hmem (by rw [hc.1]; exact List.mem_cons_self _ _)
    rw [List.cons_append, splitCRLF, if_neg ha,
      ih r (fun hc => hmem (List.mem_cons_of_mem _ hc))]
    rfl

/-- Well-formed token for the request line: nonempty, no SP, no CR, no LF. -/
def goodToken (l : List Nat) : Prop :=
  l ≠ [] ∧ ∀ b ∈ l, b ≠ 32 ∧ b ≠ 13 ∧ b ≠ 10

/-- Well-formed stored header name: nonempty, already lowercase, and free
of colon, whitespace and CR (as `http::HeaderName` guarantees). -/
def goodHeaderName (n : List Nat) : Prop :=
  n ≠ [] ∧ lowerBytes n = n ∧ ∀ b ∈ n, b ≠ 58 ∧ b ≠ 32 ∧ b ≠ 9 ∧ b ≠ 13

/-- Well-formed stored header value: only bytes httparse admits, and no
leading or trailing whitespace (the codec strips both on decode, so this
is the shape of every stored value). -/
def goodHeaderValue (v : List Nat) : Prop :=
  (∀ b ∈ v, validValueByte b = true) ∧ v.dropWhile wsp = v ∧ trimTrailingWsp v = v

theorem goodHeaderValue_no13 {v : List Nat} (hv : goodHeaderValue v) : 13 ∉ v := by
  intro hc
  exact absurd (hv.1 13 hc) (by decide)

theorem parseHeaderLine_encode (n v : List Nat)
    (hn : goodHeaderName n) (hv : goodHeaderValue v) :
    parseHeaderLine (n ++ 58 :: 32 :: v) = some (n, v) := by
  rcases hn with ⟨hne, hlow, hbytes⟩
  have hcolon : 58 ∉ n := fun hc => (hbytes 58 hc).1 rfl
  simp only [parseHeaderLine, splitByte_append 58 n (32 :: v) hcolon]
  have hcond : ¬ (n = [] ∨ 32 ∈ n ∨ 9 ∈ n ∨ 13 ∈ n) := by
    intro hc
    rcases hc with hc | hc | hc | hc
    · exact hne hc
    · exact (hbytes 32 hc).2.1 rfl
    · exact (hbytes 9 hc).2.2.1 rfl
    · exact (hbytes 13 hc).2.2.2 rfl
  rw [if_neg hcond]
  have hdrop : (32 :: v).dropWhile wsp = v := by
    rw [List.dropWhile_cons]
    simp [wsp, hv.2.1]
  rw [hdrop]
  have hall : v.all validValueByte = true := List.all_eq_true.mpr hv.1
  rw [if_pos hall, hv.2.2, hlow]

theorem encodeHeaders_length_ge :
    ∀ hs : List (List Nat × List Nat), hs.length ≤ (encodeHeaders hs).length := by
  intro hs
  induction hs with
  | nil => simp [encodeHeaders]
  | cons p tl ih =>
    rcases p with ⟨n, v⟩
    simp only [encodeHeaders, List.length_append, List.length_cons]
    omega

theorem parseHeadersLoop_encode :
    ∀ (hs : List (List Nat × List Nat)) (acc : List (List Nat × List Nat))
      (fuel : Nat) (body : List Nat),
      hs.length + acc.length ≤ 32 → hs.length + 1 ≤ fuel →
      (∀ p ∈ hs, goodHeaderName p.1 ∧ goodHeaderValue p.2) →
      parseHeadersLoop fuel (encodeHeaders hs ++ 13 :: 10 :: body) acc =
        .complete (acc.reverse ++ hs) body := by
  intro hs
  induction hs with
  | nil =>
    intro acc fuel body hcnt hfuel hgood
    cases fuel with
    | zero => omega
    | succ fuel =>
      rw [parseHeadersLoop]
      simp only [encodeHeaders, List.nil_append]
      have h0 : splitCRLF (13 :: 10 :: body) = some ([], body) :=
        splitCRLF_append [] body (by simp)
      simp only [h0]
      simp
  | cons p tl ih =>
    intro acc fuel body hcnt hfuel hgood
    rcases p with ⟨n, v⟩
    have hgn : goodHeaderName n := (hgood (n, v) (List.mem_cons_self _ _)).1
    have hgv : goodHeaderValue v := (hgood (n, v) (List.mem_cons_self _ _)).2
    cases fuel with
    | zero => omega
    | succ fuel =>
      rw [parseHeadersLoop]
      have hassoc : encodeHeaders ((n, v) :: tl) ++ 13 :: 10 :: body =
          (n ++ 58 :: 32 :: v) ++ 13 :: 10 :: (encodeHeaders tl ++ 13 :: 10 :: body) := by
        simp [encodeHeaders]
      rw [hassoc]
      have hno13 : 13 ∉ n ++ 58 :: 32 :: v := by
        intro hc
        rcases List.mem_append.mp hc with hc | hc
        · exact (hgn.2.2 13 hc).2.2.2 rfl
        · rcases hc with _ | ⟨_, hc⟩
          rcases hc with _ | ⟨_, hc⟩
          exact goodHeaderValue_no13 hgv hc
      rw [splitCRLF_append _ _ hno13]
      have hlne : ¬ (n ++ 58 :: 32 :: v = []) := by
        cases n with
        | nil => exact absurd rfl hgn.1
        | cons a tl' => simp
      simp only [if_neg hlne]
      have hacc : ¬ 32 ≤ acc.length := by
        simp only [List.length_cons] at hcnt
        omega
      rw [if_neg hacc]
      simp only [parseHeaderLine_encode n v hgn hgv]
      rw [ih ((n, v) :: acc) fuel body (by simp only [List.length_cons] at hcnt ⊢; omega)
        (by simp only [List.length_cons] at hfuel; omega)
        (fun q hq => hgood q (List.mem_cons_of_mem _ hq))]
      simp

theorem writePieces_nil :
    ∀ ps : List (List Nat), writePieces [] ps = ps.flatten := by
  intro ps
  induction ps with
  | nil => simp [writePieces]
  | cons p tl ih => simp [writePieces, ih]

theorem headerPieces_join :
    ∀ hs : List (List Nat × List Nat), (headerPieces hs).flatten = encodeHeaders hs := by
  intro hs
  induction hs with
  | nil => simp [headerPieces, encodeHeaders]
  | cons p tl ih =>
    rcases p with ⟨n, v⟩
    simp [headerPieces, encodeHeaders, ih]

/-- A run of `write_to_stream` in which every bare `write` accepts its
whole buffer emits the canonical serialization: header block followed by
the body bytes. -/
theorem write_full (r : HttpRequest) :
    write_to_stream_req [] r = requestHeaderBlock r ++ r.body := by
  rw [write_to_stream_req, writePieces_nil, requestWirePieces, requestHeaderBlock]
  by_cases hb : r.body = []
  · simp [hb, headerPieces_join]
  · simp [hb, headerPieces_join]

/-- A stored request in the encoder's canonical form: token method and
target, at most 32 headers with distinct lowercase names and values free
of leading/trailing whitespace and invalid bytes, a Content-Length
header whose value parses to the body length within `MAX_BODY_SIZE`, and
a header block fitting the 8000-byte header buffer (the body may be
arbitrarily large within `MAX_BODY_SIZE`).  Distinct names make the
model's wire-ordered header list agree with `HeaderMap` iteration, which
groups duplicate names. -/
def ValidCLRequest (r : HttpRequest) : Prop :=
  goodToken r.method ∧ goodToken r.uri ∧
  (∀ p ∈ r.headers, goodHeaderName p.1 ∧ goodHeaderValue p.2) ∧
  r.headers.length ≤ 32 ∧
  (r.headers.map (fun p => p.1)).Nodup ∧
  (headerFirst contentLengthBytes r.headers).bind parseNatBytes = some r.body.length ∧
  r.body.length ≤ MAX_BODY_SIZE ∧
  (requestHeaderBlock r).length ≤ 8000

instance (r : HttpRequest) : Decidable (ValidCLRequest r) := by
  unfold ValidCLRequest goodToken goodHeaderName goodHeaderValue
  infer_instance

/-- `parse_request` inverts the canonical serialization for any tail
following the header block (the tail becomes the initial body). -/
theorem parse_request_encode (r : HttpRequest) (h : ValidCLRequest r) (t : List Nat) :
    parse_request (requestHeaderBlock r ++ t) = .complete r.method r.uri r.headers t := by
  rcases h with ⟨hm, hu, hh, hcnt, hnd, hcl, hble, hblk⟩
  have hm32 : 32 ∉ r.method := fun hc => (hm.2 32 hc).1 rfl
  have hu32 : 32 ∉ r.uri := fun hc => (hu.2 32 hc).1 rfl
  have hassoc : requestHeaderBlock r ++ t =
      (r.method ++ 32 :: r.uri ++ 32 :: HTTP11bytes) ++ 13 :: 10 ::
        (encodeHeaders r.headers ++ 13 :: 10 :: t) := by
    simp [requestHeaderBlock]
  have hno13 : 13 ∉ r.method ++ 32 :: r.uri ++ 32 :: HTTP11bytes := by
    intro hc
    rcases List.mem_append.mp hc with hc | hc
    · rcases List.mem_append.mp hc with hc | hc
      · exact (hm.2 13 hc).2.1 rfl
      · rcases hc with _ | ⟨_, hc⟩
        exact (hu.2 13 hc).2.1 rfl
    · exact absurd hc (by decide)
  have hline : r.method ++ 32 :: r.uri ++ 32 :: HTTP11bytes =
      r.method ++ 32 :: (r.uri ++ 32 :: HTTP11bytes) := by
    simp [List.append_assoc]
  have hpl : parseRequestLine (r.method ++ 32 :: r.uri ++ 32 :: HTTP11bytes) =
      some (r.method, r.uri) := by
    rw [hline, parseRequestLine]
    simp only [splitByte_append 32 r.method (r.uri ++ 32 :: HTTP11bytes) hm32]
    simp only [splitByte_append 32 r.uri HTTP11bytes hu32]
    rw [if_pos ⟨hm.1, hu.1, by simp⟩]
  have hfuel : r.headers.length + 1 ≤
      (encodeHeaders r.headers ++ 13 :: 10 :: t).length + 1 := by
    have := encodeHeaders_length_ge r.headers
    simp only [List.length_append, List.length_cons]
    omega
  have hloop := parseHeadersLoop_encode r.headers []
    ((encodeHeaders r.headers ++ 13 :: 10 :: t).length + 1) t
    (by simpa using hcnt) hfuel hh
  rw [parse_request, hassoc]
  simp only [splitCRLF_append _ _ hno13]
  simp only [hpl]
  simp only [hloop]
  simp

/-- `read_body` consumes a single pending run that completes the body to
exactly the declared length, even when it spans several reads of the
`min 512 content_length` buffer. -/
theorem read_body_req_pending :
    ∀ (fuel : Nat) (body pending : List Nat) (cl : Nat),
      pending ≠ [] →
      body.length + pending.length = cl →
      pending.length + 1 ≤ fuel →
      read_body_req fuel [Chunk.data pending] body cl = .ok (body ++ pending, []) := by
  intro fuel
  induction fuel with
  | zero => intro body pending cl hne hsum hfuel; omega
  | succ fuel ih =>
    intro body pending cl hne hsum hfuel
    have hplen : 1 ≤ pending.length := by
      cases pending with
      | nil => exact absurd rfl hne
      | cons a t => simp
    have hlt : body.length < cl := by omega
    have hcap : 1 ≤ min 512 cl := by omega
    rw [read_body_req, if_pos hlt]
    by_cases hle : pending.length ≤ min 512 cl
    · have hrs : readStream (min 512 cl) [Chunk.data pending] = (.ok pending, []) := by
        rw [readStream, if_pos hle]
      simp only [hrs]
      rw [if_neg (by omega : ¬ pending.length = 0)]
      rw [if_neg (by omega : ¬ cl < body.length + pending.length)]
      cases fuel with
      | zero => omega
      | succ fuel2 =>
        rw [read_body_req]
        rw [if_neg (by simp only [List.length_append]; omega :
          ¬ (body ++ pending).length < cl)]
    · push_neg at hle
      have hrs : readStream (min 512 cl) [Chunk.data pending] =
          (.ok (pending.take (min 512 cl)), [Chunk.data (pending.drop (min 512 cl))]) := by
        rw [readStream, if_neg (by omega)]
      simp only [hrs]
      have htklen : (pending.take (min 512 cl)).length = min 512 cl := by
        simp only [List.length_take]
        omega
      rw [if_neg (by rw [htklen]; omega)]
      rw [if_neg (by rw [htklen]; omega : ¬ cl < body.length + (pending.take (min 512 cl)).length)]
      have hdne : pending.drop (min 512 cl) ≠ [] := by
        apply List.length_pos.mp
        simp only [List.length_drop]
        omega
      have hsum' : (body ++ pending.take (min 512 cl)).length +
          (pending.drop (min 512 cl)).length = cl := by
        simp only [List.length_append, htklen, List.length_drop]
        omega
      have hfuel' : (pending.drop (min 512 cl)).length + 1 ≤ fuel := by
        simp only [List.length_drop]
        omega
      rw [ih (body ++ pending.take (min 512 cl)) (pending.drop (min 512 cl)) cl
        hdne hsum' hfuel']
      rw [List.append_assoc, List.take_append_drop]

/-- Claim C2 (amended): decode-then-encode is byte-identical exactly on
wire forms in the encoder's canonical shape — lowercase distinct header
names, single-space separators, values without surrounding whitespace,
CRLF endings, header block within the 8000-byte buffer, body of any
size up to `MAX_BODY_SIZE`.  Every such wire form is the output of a
full (no-short-write) run of `write_to_stream` on a valid stored
request `r`, and decoding it returns precisely `r`, so re-encoding
reproduces the same bytes.  In general the round trip is not
byte-identical, because `http::HeaderName` lowercases stored names and
httparse strips whitespace around values. -/
theorem request_roundtrip_canonical (r : HttpRequest) (h : ValidCLRequest r) :
    read_from_stream_req [Chunk.data (write_to_stream_req [] r)] = .ok r := by
  have hpr := parse_request_encode r h
  rcases h with ⟨hm, hu, hh, hcnt, hnd, hcl, hble, hblk⟩
  rcases hfirst : headerFirst contentLengthBytes r.headers with _ | v
  · rw [hfirst] at hcl
    simp at hcl
  · have hpn : parseNatBytes v = some r.body.length := by
      rw [hfirst] at hcl
      simpa using hcl
    rw [write_full]
    by_cases hsz : (requestHeaderBlock r ++ r.body).length ≤ 8000
    · have hene : requestHeaderBlock r ++ r.body ≠ [] := by
        simp [requestHeaderBlock]
      have hzero : ¬ (requestHeaderBlock r ++ r.body).length = 0 := by
        simpa [List.length_eq_zero] using hene
      have hread : readStream 8000 [Chunk.data (requestHeaderBlock r ++ r.body)] =
          (.ok (requestHeaderBlock r ++ r.body), []) := by
        rw [readStream, if_pos hsz]
      have hrh : read_headers_req 8001 [Chunk.data (requestHeaderBlock r ++ r.body)] [] =
          .ok (⟨r.method, r.uri, r.headers, r.body⟩, []) := by
        rw [show (8001 : Nat) = 8000 + 1 from rfl, read_headers_req]
        simp only [List.length_nil, Nat.sub_zero, hread]
        rw [if_neg hzero]
        simp only [List.nil_append, hpr r.body]
      rw [read_from_stream_req]
      simp only [hrh]
      have hgcl : get_content_length_req ⟨r.method, r.uri, r.headers, r.body⟩ =
          .ok (some r.body.length) := by
        rw [get_content_length_req]
        simp only [hfirst, hpn]
      simp only [hgcl]
      rw [if_neg (by omega : ¬ MAX_BODY_SIZE < r.body.length)]
      have hrb : read_body_req (r.body.length + 1) [] r.body r.body.length =
          .ok (r.body, []) := by
        rw [read_body_req, if_neg (by omega)]
      simp only [hrb]
    · push_neg at hsz
      have hsz' : 8000 < (requestHeaderBlock r).length + r.body.length := by
        simpa [List.length_append] using hsz
      have hbodyk : 8000 - (requestHeaderBlock r).length < r.body.length := by omega
      have htake : (requestHeaderBlock r ++ r.body).take 8000 =
          requestHeaderBlock r ++ r.body.take (8000 - (requestHeaderBlock r).length) := by
        rw [List.take_append_eq_append_take, List.take_of_length_le hblk]
      have hdrop : (requestHeaderBlock r ++ r.body).drop 8000 =
          r.body.drop (8000 - (requestHeaderBlock r).length) := by
        rw [List.drop_append_eq_append_drop, List.drop_eq_nil_of_le hblk, List.nil_append]
      have hlen8000 : ((requestHeaderBlock r ++ r.body).take 8000).length = 8000 := by
        simp only [List.length_take, List.length_append]
        omega
      have hread : readStream 8000 [Chunk.data (requestHeaderBlock r ++ r.body)] =
          (.ok ((requestHeaderBlock r ++ r.body).take 8000),
            [Chunk.data ((requestHeaderBlock r ++ r.body).drop 8000)]) := by
        rw [readStream, if_neg (by simp only [List.length_append]; omega)]
      have hrh : read_headers_req 8001 [Chunk.data (requestHeaderBlock r ++ r.body)] [] =
          .ok (⟨r.method, r.uri, r.headers,
            r.body.take (8000 - (requestHeaderBlock r).length)⟩,
            [Chunk.data (r.body.drop (8000 - (requestHeaderBlock r).length))]) := by
        rw [show (8001 : Nat) = 8000 + 1 from rfl, read_headers_req]
        simp only [List.length_nil, Nat.sub_zero, hread]
        rw [if_neg (by rw [hlen8000]; omega)]
        rw [List.nil_append, htake]
        simp only [hpr (r.body.take (8000 - (requestHeaderBlock r).length)), hdrop]
      rw [read_from_stream_req]
      simp only [hrh]
      have hgcl : get_content_length_req ⟨r.method, r.uri, r.headers,
          r.body.take (8000 - (requestHeaderBlock r).length)⟩ =
          .ok (some r.body.length) := by
        rw [get_content_length_req]
        simp only [hfirst, hpn]
      simp only [hgcl]
      rw [if_neg (by omega : ¬ MAX_BODY_SIZE < r.body.length)]
      have htklen : (r.body.take (8000 - (requestHeaderBlock r).length)).length =
          8000 - (requestHeaderBlock r).length := by
        simp only [List.length_take]
        omega
      have hdne : r.body.drop (8000 - (requestHeaderBlock r).length) ≠ [] := by
        apply List.length_pos.mp
        simp only [List.length_drop]
        omega
      have hrb := read_body_req_pending (r.body.length + 1)
        (r.body.take (8000 - (requestHeaderBlock r).length))
        (r.body.drop (8000 - (requestHeaderBlock r).length))
        r.body.length hdne
        (by simp only [htklen, List.length_drop]; omega)
        (by simp only [List.length_drop]; omega)
      rw [List.take_append_drop] at hrb
      simp only [hrb]

/-- Witness for `request_roundtrip_canonical`: a canonical GET with
Content-Length 0 decodes back to itself from its own full-write
encoding. -/
theorem request_roundtrip_canonical_witness :
    ValidCLRequest ⟨asciiBytes "GET", asciiBytes "/",
      [(contentLengthBytes, asciiBytes "0")], []⟩ ∧
    read_from_stream_req [Chunk.data (write_to_stream_req []
      ⟨asciiBytes "GET", asciiBytes "/", [(contentLengthBytes, asciiBytes "0")], []⟩)] =
      .ok ⟨asciiBytes "GET", asciiBytes "/", [(contentLengthBytes, asciiBytes "0")], []⟩ :=
  ⟨by decide, request_roundtrip_canonical
    ⟨asciiBytes "GET", asciiBytes "/", [(contentLengthBytes, asciiBytes "0")], []⟩
    (by decide)⟩

/-- Counterexample to claim C2 as stated: decoding a valid request whose
Content-Length header is spelled "Content-Length" and re-encoding it
(with every write completing in full) emits "content-length" — the
stored name is lowercased — so the output differs from the input bytes. -/
theorem request_roundtrip_counterexample :
    (read_from_stream_req
        [Chunk.data (asciiBytes "GET / HTTP/1.1\r\nContent-Length: 0\r\n\r\n")]).map
        (write_to_stream_req []) =
      .ok (asciiBytes "GET / HTTP/1.1\r\ncontent-length: 0\r\n\r\n") ∧
    (read_from_stream_req
        [Chunk.data (asciiBytes "GET / HTTP/1.1\r\nContent-Length: 0\r\n\r\n")]).map
        (write_to_stream_req []) ≠
      .ok (asciiBytes "GET / HTTP/1.1\r\nContent-Length: 0\r\n\r\n") := ⟨by decide, by decide⟩
